import Mathlib

/-!
# ribs: the asynchronous image decoder (`src/image_decoder.cc`)

A shallow embedding of the callback chain
`Decode -> OnOpen -> OnRead* -> Close -> BeginDecode -> DecodeAsync -> OnDecoded -> Done`.

The event loop, the allocator and leptonica are external: their answers are
collected in a `World`.  Every C function becomes a Lean function on the
`Baton`; what a request does to the outside (file-system calls, writes of the
error slot, the user callback) is logged as a list of `Event`s, in program
order.  The read loop is driven by a fuel counter: one unit of fuel is one
read completion delivered by the event loop; the completions of the open and of
the queued work are always delivered.

`smart_buffer.h` and the header declaring `RibsError` are not among the sources;
`SmartBuffer` and `RibsError` follow the specification.
-/

namespace Ribs

/-- One byte, as a natural number. -/
abbrev Byte := Nat

/-- The bytes a C string points to (a `const char*` handed to a function that
expects a byte pointer). -/
def cstr (s : String) : List Byte := s.toList.map Char.toNat

/-- A leptonica `Pix`: an image handle, with the only property the decoder
looks at, whether a colormap is attached (`pixGetColormap(pix) != NULL`). -/
structure Pix where
  id : Nat
  colormap : Bool
deriving DecidableEq, Repr

/-- Modelled from the spec: `SmartBuffer` (smart_buffer.h is not part of the
sources at hand): an append-only byte buffer with `append(slab, count)`, after
which `size` has grown by `count`, `size()` and `contiguous()`. -/
structure SmartBuffer where
  bytes : List Byte
deriving DecidableEq, Repr

/-- Modelled from the spec: `SmartBuffer::append(slab, count)` appends `count`
bytes read from `slab`; the size grows by exactly `count`. -/
def SmartBuffer.append (b : SmartBuffer) (slab : List Byte) (count : Nat) : SmartBuffer :=
  ⟨b.bytes ++ (List.range count).map (fun i => slab.getD i 0)⟩

/-- Modelled from the spec: `SmartBuffer::size()`, the total of the accumulated bytes. -/
def SmartBuffer.size (b : SmartBuffer) : Nat := b.bytes.length

/-- Modelled from the spec: `SmartBuffer::contiguous()`, one view of all bytes. -/
def SmartBuffer.contiguous (b : SmartBuffer) : List Byte := b.bytes

/-- `ImageDecoder::Result`: the error slot (empty string: no error), the file
name, the JavaScript callback handle (the user token) and the decoded image
(`none` is the null pointer). -/
structure Result where
  error : String
  filename : String
  callback : Nat
  data : Option Pix
deriving DecidableEq, Repr

/-- `struct Baton`: the result, the file descriptor, the scratch chunk (`none`
is `NULL`) and the accumulated bytes.  The libuv request records `fs` and
`work` only carry the baton pointer; the internal `callback` member is
represented by the `Event.callback` it produces. -/
structure Baton where
  result : Result
  fd : Int
  buf : Option (List Byte)
  buffer : SmartBuffer
deriving DecidableEq, Repr

/-- What a read completion carries: `req->result` (`-1` on error, otherwise the
byte count) and the bytes libuv stored at the start of the scratch chunk. -/
structure ReadReply where
  result : Int
  bytes : List Byte
deriving DecidableEq, Repr

/-- The answers of the environment.
* `WIN32`: the platform switch of the preprocessor;
* `ChunkSize`: the constant `SmartBuffer::ChunkSize`;
* `uv_fs_open f`: `req->result` seen by `OnOpen` (`-1` or the descriptor);
* `lastError`: `uv_strerror(uv_last_error(uv_default_loop()))`;
* `alloc`: `new uint8_t[ChunkSize]`: the fresh chunk, or `none` when the allocation
  fails (the plain `new` of the source then throws `std::bad_alloc`);
* `read k fd off`: the completion of the `k`-th read, issued on `fd` at `off`;
* `uv_fs_close fd`: the return value of the synchronous close;
* `pixRead`, `pixReadMem`, `pixRemoveColormap`: leptonica. -/
structure World where
  WIN32 : Bool
  ChunkSize : Nat
  uv_fs_open : String → Int
  lastError : String
  alloc : Option (List Byte)
  read : Nat → Int → Nat → ReadReply
  uv_fs_close : Int → Int
  pixRead : String → Option Pix
  pixReadMem : List Byte → Option Pix
  pixRemoveColormap : Pix → Option Pix

/-- What a request does, in program order.  `badAlloc` is the `std::bad_alloc`
thrown by a failed `new`: the exception leaves the callback chain, nothing of the
request runs after it. -/
inductive Event where
  | fsOpen (filename : String)
  | fsRead (fd : Int) (offset : Nat)
  | fsClose (fd : Int) (err : Int)
  | ribsError (what detail : String)
  | queueWork (baton : Baton)
  | decodeAsync (baton : Baton)
  | onDecoded (baton : Baton)
  | callback (result : Result)
  | free
  | badAlloc
deriving DecidableEq, Repr

/-- Modelled from the spec: `RibsError(slot, what, detail)` (declared outside the
sources at hand) fills the error slot with `what: detail`, as in
`can't decode file: unknown image format`. -/
def RibsError (what detail : String) : String := what ++ ": " ++ detail

/-- The baton with its error slot overwritten. -/
def Baton.setError (b : Baton) (e : String) : Baton :=
  { b with result := { b.result with error := e } }

/-- `Done`: forward the result to the callback, free the scratch chunk and the baton. -/
def Done (b : Baton) : List Event :=
  [Event.callback b.result, Event.free]

/-- `OnDecoded`: a null image is reported as a decode failure; then `Done`. -/
def OnDecoded (b : Baton) : List Event :=
  Event.onDecoded b ::
    (if b.result.data = none then
      Event.ribsError "can't decode file" "unknown image format" ::
        Done (b.setError (RibsError "can't decode file" "unknown image format"))
    else
      Done b)

/-- The macro `PIX_READ`: `pixRead` under `WIN32`, `pixReadMem` otherwise.  The
argument is the one `DecodeAsync` passes. -/
def PIX_READ (w : World) (filename : String) : Option Pix :=
  if w.WIN32 then w.pixRead filename else w.pixReadMem (cstr filename)

/-- `pixGetColormap`: null for a null image. -/
def pixGetColormap : Option Pix → Bool
  | none => false
  | some p => p.colormap

/-- `DecodeAsync`: `PIX_READ(baton->result.filename)`, colormap removal, store
the image in `result.data`. -/
def DecodeAsync (w : World) (b : Baton) : Baton :=
  let data := PIX_READ w b.result.filename
  let data := if pixGetColormap data then data.bind w.pixRemoveColormap else data
  { b with result := { b.result with data := data } }

/-- `BeginDecode`: queue the work; the pool runs `DecodeAsync`, then the loop
runs `OnDecoded`. -/
def BeginDecode (w : World) (b : Baton) : List Event :=
  Event.queueWork b :: Event.decodeAsync b :: OnDecoded (DecodeAsync w b)

/-- `Close`: close `baton->fd` synchronously; a failure is dropped (the report is
commented out in the source). -/
def Close (w : World) (b : Baton) : Baton × List Event :=
  let err := w.uv_fs_close b.fd
  if err = -1 then (b, [Event.fsClose b.fd err]) else (b, [Event.fsClose b.fd err])

/-- `OnRead`, with `req->result = result`.  `next b off` stands for
`uv_fs_read(..., baton->fd, baton->buf, ChunkSize, off, OnRead)`.  The call
`baton->buffer.append(baton->buf)` passes the scratch chunk and no byte count:
the slab appended is the whole chunk. -/
def OnRead (next : Baton → Nat → List Event) (w : World) (b : Baton) (result : Int) :
    List Event :=
  if result = -1 then
    let b := b.setError (RibsError "can't read file" w.lastError)
    Event.ribsError "can't read file" w.lastError :: ((Close w b).2 ++ Done (Close w b).1)
  else
    let b := { b with buffer := b.buffer.append (b.buf.getD []) w.ChunkSize }
    if result = (w.ChunkSize : Int) then
      next b b.buffer.size
    else
      (Close w b).2 ++ BeginDecode w (Close w b).1

/-- `uv_fs_read` with its completion: the `k`-th read on `baton->fd` at `offset`
stores the bytes at the start of the scratch chunk and runs `OnRead`.  Without
fuel the read is issued and its completion is never delivered. -/
def uv_fs_read (w : World) : Nat → Nat → Baton → Nat → List Event
  | 0, _, b, offset => [Event.fsRead b.fd offset]
  | fuel + 1, k, b, offset =>
    let reply := w.read k b.fd offset
    let b := { b with buf := b.buf.map (fun old => reply.bytes ++ old.drop reply.bytes.length) }
    Event.fsRead b.fd offset :: OnRead (uv_fs_read w fuel (k + 1)) w b reply.result

/-- `OnOpen`, with `req->result = result`.  The scratch chunk comes from a plain
`new uint8_t[ChunkSize]`: when the allocation fails it throws, and `OnOpen` is left
by the exception; when it succeeds the pointer is not null, so the test
`NULL == baton->buf` that follows never holds. -/
def OnOpen (fuel : Nat) (w : World) (b : Baton) (result : Int) : List Event :=
  if result = -1 then
    Event.ribsError "can't open file" w.lastError ::
      Done (b.setError (RibsError "can't open file" w.lastError))
  else
    match w.alloc with
    | none => [Event.badAlloc]
    | some chunk =>
      let b := { b with buf := some chunk }
      if b.buf = none then
        let b := b.setError (RibsError "can't open file" "not enough memory")
        Event.ribsError "can't open file" "not enough memory" ::
          ((Close w b).2 ++ Done (Close w b).1)
      else
        let b := { b with fd := result }
        uv_fs_read w fuel 0 b 0

/-- The baton `Decode` starts with: `new Baton()` value-initialises it (null
image, descriptor `0`, empty buffer), then `buf` is set to `NULL`, the error slot
is emptied and the file name and the JavaScript callback are stored. -/
def newBaton (filename : String) (jsCallback : Nat) : Baton :=
  { result := { error := "", filename := filename, callback := jsCallback, data := none }
    fd := 0
    buf := none
    buffer := ⟨[]⟩ }

/-- `ImageDecoder::Decode`: off `WIN32` the file is opened and `OnOpen` runs with
the result; under `WIN32` decoding starts at once. -/
def Decode (fuel : Nat) (w : World) (filename : String) (jsCallback : Nat) : List Event :=
  let baton := newBaton filename jsCallback
  if w.WIN32 = false then
    Event.fsOpen filename :: OnOpen fuel w baton (w.uv_fs_open filename)
  else
    BeginDecode w baton

/-! ## Observations on a trace -/

/-- The result an event hands to the user callback, if it is a callback. -/
def Event.asCallback : Event → Option Result
  | Event.callback r => some r
  | _ => none

/-- The descriptor an event tries to close, if it is a close. -/
def Event.asClose : Event → Option Int
  | Event.fsClose fd _ => some fd
  | _ => none

/-- The offset an event reads at, if it is a read. -/
def Event.asRead : Event → Option Nat
  | Event.fsRead _ off => some off
  | _ => none

/-- The two parts of the message an event writes to the error slot, if it is such a write. -/
def Event.asError : Event → Option (String × String)
  | Event.ribsError what detail => some (what, detail)
  | _ => none

/-- The baton an event hands to the worker pool, if it queues the work. -/
def Event.asHandover : Event → Option Baton
  | Event.queueWork b => some b
  | _ => none

/-- The baton `OnDecoded` is entered with, if the event is that entry. -/
def Event.asDecoded : Event → Option Baton
  | Event.onDecoded b => some b
  | _ => none

/-- The baton `DecodeAsync` is entered with, if the event is that entry. -/
def Event.asDecodeRun : Event → Option Baton
  | Event.decodeAsync b => some b
  | _ => none

/-- The results handed to the user callback. -/
def callbacks (t : List Event) : List Result := t.filterMap Event.asCallback

/-- The descriptors on which a close was attempted. -/
def closes (t : List Event) : List Int := t.filterMap Event.asClose

/-- The offsets of the reads issued. -/
def readOffsets (t : List Event) : List Nat := t.filterMap Event.asRead

/-- The writes of the error slot, each as the pair `(what, detail)` given to `RibsError`. -/
def errorWrites (t : List Event) : List (String × String) := t.filterMap Event.asError

/-- The batons handed over to the worker pool. -/
def handovers (t : List Event) : List Baton := t.filterMap Event.asHandover

/-- The batons on which `OnDecoded` ran. -/
def decodedOn (t : List Event) : List Baton := t.filterMap Event.asDecoded

/-- The batons on which `DecodeAsync` ran. -/
def decodeRuns (t : List Event) : List Baton := t.filterMap Event.asDecodeRun

/-- A sample world: a file of `len` bytes (byte `i` is `i % 251`) behind
descriptor `fd`, chunks of four bytes, a decoder that accepts nothing. -/
def sampleWorld (len : Nat) (fd : Int) : World :=
  { WIN32 := false
    ChunkSize := 4
    uv_fs_open := fun _ => fd
    lastError := "ENOENT"
    alloc := some [0, 0, 0, 0]
    read := fun _ _ off =>
      { result := ((min 4 (len - off) : Nat) : Int)
        bytes := ((List.range len).map (fun i => i % 251)).drop off |>.take 4 }
    uv_fs_close := fun _ => 0
    pixRead := fun _ => none
    pixReadMem := fun _ => none
    pixRemoveColormap := fun p => some { p with colormap := false } }


/-- The baton `OnRead` works on once the scratch chunk was appended. -/
def appended (w : World) (b : Baton) : Baton :=
  { b with buffer := b.buffer.append (b.buf.getD []) w.ChunkSize }

/-- The trace of a failed read: error write, close, callback. -/
def readFailed (w : World) (b : Baton) : List Event :=
  [Event.ribsError "can't read file" w.lastError,
   Event.fsClose b.fd (w.uv_fs_close b.fd),
   Event.callback { b.result with error := RibsError "can't read file" w.lastError },
   Event.free]

/-- The baton after the completion of a read: the bytes are at the start of the scratch chunk. -/
def delivered (b : Baton) (reply : ReadReply) : Baton :=
  { b with buf := b.buf.map (fun old => reply.bytes ++ old.drop reply.bytes.length) }

/-- How the read loop entered with baton `b` can go on after its reads: no
completion is delivered any more, a read fails, or a short read ends the file. -/
inductive Tail (w : World) (b : Baton) : List Event → Prop
  | pending : Tail w b []
  | failed (c : Baton) : c.result = b.result → c.fd = b.fd → Tail w b (readFailed w c)
  | short (c : Baton) : c.result = b.result → c.fd = b.fd →
      Tail w b (Event.fsClose c.fd (w.uv_fs_close c.fd) :: BeginDecode w (appended w c))

/-- The shapes a request can take: the paths through the callback chain. -/
inductive Run (w : World) (f : String) (tok : Nat) : List Event → Prop
  | direct : w.WIN32 = true → Run w f tok (BeginDecode w (newBaton f tok))
  | openFailed : w.WIN32 = false → w.uv_fs_open f = -1 →
      Run w f tok
        [Event.fsOpen f, Event.ribsError "can't open file" w.lastError,
         Event.callback
           { (newBaton f tok).result with error := RibsError "can't open file" w.lastError },
         Event.free]
  | allocFailed : w.WIN32 = false → w.uv_fs_open f ≠ -1 → w.alloc = none →
      Run w f tok [Event.fsOpen f, Event.badAlloc]
  | reading (offs : List Nat) (tail : List Event) (b : Baton) :
      w.WIN32 = false → w.uv_fs_open f ≠ -1 → w.alloc ≠ none →
      b.result = (newBaton f tok).result → b.fd = w.uv_fs_open f → Tail w b tail →
      Run w f tok (Event.fsOpen f :: (offs.map (Event.fsRead (w.uv_fs_open f)) ++ tail))

/-- The reads on descriptor `fd` end with read number `n`: reads `0 .. n-1`, issued
at the multiples of the chunk size, return a whole chunk, and read `n` does not
(it fails or is short). -/
def ReadsEndAt (w : World) (fd : Int) (n : Nat) : Prop :=
  (∀ i, i < n → (w.read i fd (i * w.ChunkSize)).result = (w.ChunkSize : Int)) ∧
    (w.read n fd (n * w.ChunkSize)).result ≠ (w.ChunkSize : Int)

/-- The trace after the last read, which returned `r` on baton `c`. -/
def afterLastRead (w : World) (c : Baton) (r : Int) : List Event :=
  if r = -1 then readFailed w c
  else Event.fsClose c.fd (w.uv_fs_close c.fd) :: BeginDecode w (appended w c)

/-- The result `OnDecoded` forwards for a baton handed to the worker pool. -/
def finish (w : World) (b : Baton) : Result :=
  if (DecodeAsync w b).result.data = none then
    { (DecodeAsync w b).result with
      error := RibsError "can't decode file" "unknown image format" }
  else (DecodeAsync w b).result

/-- The two outcomes a callback may see: an image and no error, or no image and an error. -/
def Result.wellFormed (r : Result) : Prop :=
  Xor' (r.data ≠ none ∧ r.error = "") (r.data = none ∧ r.error ≠ "")

/-- The file behind the descriptor of `f` has `len` bytes and is read without
error: a read at offset `off` returns `min ChunkSize (len - off)` bytes. -/
def ReadsFile (w : World) (f : String) (len : Nat) : Prop :=
  ∀ k off, (w.read k (w.uv_fs_open f) off).result = ((min w.ChunkSize (len - off) : Nat) : Int)

/-- A sample world with a decoder: the file holds the bytes `0, 1, 2`, and
`pixReadMem` decodes every byte sequence that starts with them. -/
def imageWorld : World :=
  { sampleWorld 3 3 with
    pixReadMem := fun bytes => if bytes.take 3 = [0, 1, 2] then some ⟨1, false⟩ else none }

/-- A sample world in which the file cannot be opened and the decoder, asked by
path, returns null. -/
def missingFileWorld (win32 : Bool) : World :=
  { sampleWorld 0 (-1) with WIN32 := win32 }

/-- A sample world in which the open returns descriptor 3 and the allocation of the
scratch chunk fails. -/
def allocFailureWorld : World :=
  { sampleWorld 9 3 with alloc := none }

/-- A sample world whose decoders return the same image by path and from memory. -/
def agreeingWorld : World :=
  { sampleWorld 3 3 with
    pixRead := fun _ => some ⟨1, false⟩
    pixReadMem := fun _ => some ⟨1, false⟩ }

/-- World `v` answers as world `w` does, except possibly for the close. -/
def SameButClose (w v : World) : Prop :=
  v.WIN32 = w.WIN32 ∧ v.ChunkSize = w.ChunkSize ∧ v.uv_fs_open = w.uv_fs_open ∧
    v.lastError = w.lastError ∧ v.alloc = w.alloc ∧ v.read = w.read ∧
    v.pixRead = w.pixRead ∧ v.pixReadMem = w.pixReadMem ∧
    v.pixRemoveColormap = w.pixRemoveColormap

/-- An event with the return value of the close blanked. -/
def Event.forgetCloseResult : Event → Event
  | Event.fsClose fd _ => Event.fsClose fd 0
  | e => e

/-! ## The single functions -/

theorem SmartBuffer.size_append (b : SmartBuffer) (slab : List Byte) (count : Nat) :
    (b.append slab count).size = b.size + count := by
  simp [SmartBuffer.size, SmartBuffer.append]

theorem Close_eq (w : World) (b : Baton) :
    Close w b = (b, [Event.fsClose b.fd (w.uv_fs_close b.fd)]) := by
  simp [Close]

theorem OnRead_failed (next : Baton → Nat → List Event) (w : World) (b : Baton) :
    OnRead next w b (-1) = readFailed w b := by
  simp [OnRead, Close_eq, Done, Baton.setError, readFailed]

theorem OnRead_full (next : Baton → Nat → List Event) (w : World) (b : Baton) :
    OnRead next w b (w.ChunkSize : Int) = next (appended w b) (appended w b).buffer.size := by
  have h : ((w.ChunkSize : Int) = -1) = False := by
    apply eq_false
    omega
  simp [OnRead, h, appended]

theorem OnRead_full_of (next : Baton → Nat → List Event) (w : World) (b : Baton) (r : Int)
    (h : r = (w.ChunkSize : Int)) :
    OnRead next w b r = next (appended w b) (appended w b).buffer.size := by
  rw [h, OnRead_full]

theorem OnRead_short (next : Baton → Nat → List Event) (w : World) (b : Baton) (r : Int)
    (h1 : r ≠ -1) (h2 : r ≠ (w.ChunkSize : Int)) :
    OnRead next w b r =
      Event.fsClose b.fd (w.uv_fs_close b.fd) :: BeginDecode w (appended w b) := by
  simp [OnRead, h1, h2, Close_eq, appended]

theorem uv_fs_read_succ (w : World) (fuel k : Nat) (b : Baton) (off : Nat) :
    uv_fs_read w (fuel + 1) k b off =
      Event.fsRead b.fd off ::
        OnRead (uv_fs_read w fuel (k + 1)) w (delivered b (w.read k b.fd off))
          (w.read k b.fd off).result := by
  simp [uv_fs_read, delivered]

/-- The trace of `OnDecoded` and `Done`, spelled out. -/
theorem OnDecoded_eq (b : Baton) :
    OnDecoded b =
      if b.result.data = none then
        [Event.onDecoded b, Event.ribsError "can't decode file" "unknown image format",
         Event.callback
           { b.result with error := RibsError "can't decode file" "unknown image format" },
         Event.free]
      else
        [Event.onDecoded b, Event.callback b.result, Event.free] := by
  unfold OnDecoded Done Baton.setError
  split <;> rfl


theorem OnOpen_failed (fuel : Nat) (w : World) (b : Baton) :
    OnOpen fuel w b (-1) =
      [Event.ribsError "can't open file" w.lastError,
       Event.callback { b.result with error := RibsError "can't open file" w.lastError },
       Event.free] := by
  simp [OnOpen, Done, Baton.setError]

theorem OnOpen_badAlloc (fuel : Nat) (w : World) (b : Baton) (r : Int) (hr : r ≠ -1)
    (ha : w.alloc = none) : OnOpen fuel w b r = [Event.badAlloc] := by
  simp [OnOpen, hr, ha]

theorem OnOpen_reads (fuel : Nat) (w : World) (b : Baton) (r : Int) (chunk : List Byte)
    (hr : r ≠ -1) (ha : w.alloc = some chunk) :
    OnOpen fuel w b r = uv_fs_read w fuel 0 { b with buf := some chunk, fd := r } 0 := by
  simp [OnOpen, hr, ha]

/-! ## The read loop and the shape of a request -/

theorem Tail.transport {w : World} {b c : Baton} {t : List Event} (h : Tail w c t)
    (hr : c.result = b.result) (hf : c.fd = b.fd) : Tail w b t := by
  cases h with
  | pending => exact Tail.pending
  | failed d h1 h2 => exact Tail.failed d (h1.trans hr) (h2.trans hf)
  | short d h1 h2 => exact Tail.short d (h1.trans hr) (h2.trans hf)

theorem uv_fs_read_shape (w : World) :
    ∀ (fuel k : Nat) (b : Baton) (off : Nat),
      ∃ (offs : List Nat) (tail : List Event),
        uv_fs_read w fuel k b off = offs.map (Event.fsRead b.fd) ++ tail ∧
        Tail w b tail := by
  intro fuel
  induction fuel with
  | zero =>
    intro k b off
    exact ⟨[off], [], by simp [uv_fs_read], Tail.pending⟩
  | succ fuel ih =>
    intro k b off
    rw [uv_fs_read_succ]
    by_cases h1 : (w.read k b.fd off).result = -1
    · rw [h1, OnRead_failed]
      exact ⟨[off], _, rfl, Tail.failed (delivered b (w.read k b.fd off)) rfl rfl⟩
    · by_cases h2 : (w.read k b.fd off).result = (w.ChunkSize : Int)
      · rw [h2, OnRead_full]
        obtain ⟨offs, tail, he, ht⟩ :=
          ih (k + 1) (appended w (delivered b (w.read k b.fd off)))
            (appended w (delivered b (w.read k b.fd off))).buffer.size
        refine ⟨off :: offs, tail, ?_, ht.transport rfl rfl⟩
        rw [he]
        rfl
      · rw [OnRead_short _ _ _ _ h1 h2]
        exact ⟨[off], _, rfl, Tail.short (delivered b (w.read k b.fd off)) rfl rfl⟩

theorem Decode_run (fuel : Nat) (w : World) (f : String) (tok : Nat) :
    Run w f tok (Decode fuel w f tok) := by
  unfold Decode
  by_cases hw : w.WIN32 = false
  · simp only [hw, if_true]
    by_cases ho : w.uv_fs_open f = -1
    · rw [ho, OnOpen_failed]
      exact Run.openFailed hw ho
    · cases ha : w.alloc with
      | none =>
        rw [OnOpen_badAlloc fuel w _ _ ho ha]
        exact Run.allocFailed hw ho ha
      | some chunk =>
        rw [OnOpen_reads fuel w _ _ chunk ho ha]
        obtain ⟨offs, tail, he, ht⟩ := uv_fs_read_shape w fuel 0
          { newBaton f tok with buf := some chunk, fd := w.uv_fs_open f } 0
        rw [he]
        exact Run.reading offs tail
          { newBaton f tok with buf := some chunk, fd := w.uv_fs_open f } hw ho (by simp [ha])
          rfl rfl ht
  · simp only [hw, if_false]
    exact Run.direct (by simpa using hw)

theorem OnRead_last (next : Baton → Nat → List Event) (w : World) (c : Baton) (r : Int)
    (h : r ≠ (w.ChunkSize : Int)) : OnRead next w c r = afterLastRead w c r := by
  unfold afterLastRead
  by_cases h1 : r = -1
  · subst h1
    simp [OnRead_failed]
  · simp [h1, OnRead_short next w c r h1 h]

/-- The read loop entered at read number `k` with `k` chunks in the buffer: after
`n` whole chunks it reaches read number `k + n` with `k + n` chunks accumulated. -/
theorem uv_fs_read_run (w : World) :
    ∀ (n extra k : Nat) (b : Baton), b.buffer.size = k * w.ChunkSize →
      (∀ i, k ≤ i → i < k + n →
        (w.read i b.fd (i * w.ChunkSize)).result = (w.ChunkSize : Int)) →
      ∃ c : Baton, c.result = b.result ∧ c.fd = b.fd ∧
        c.buffer.size = (k + n) * w.ChunkSize ∧
        uv_fs_read w (n + 1 + extra) k b (k * w.ChunkSize) =
          (List.range' k (n + 1)).map (fun i => Event.fsRead b.fd (i * w.ChunkSize)) ++
            OnRead (uv_fs_read w extra (k + n + 1)) w c
              (w.read (k + n) b.fd ((k + n) * w.ChunkSize)).result := by
  intro n
  induction n with
  | zero =>
    intro extra k b hs _
    refine ⟨delivered b (w.read k b.fd (k * w.ChunkSize)), rfl, rfl, by simpa [delivered] using hs, ?_⟩
    rw [show 0 + 1 + extra = extra + 1 by omega, uv_fs_read_succ]
    simp
  | succ n ih =>
    intro extra k b hs hfull
    have h0 := hfull k (le_refl k) (by omega)
    have hsz : (appended w (delivered b (w.read k b.fd (k * w.ChunkSize)))).buffer.size =
        (k + 1) * w.ChunkSize := by
      simp only [appended, delivered, SmartBuffer.size_append, hs]
      ring
    obtain ⟨c, hc1, hc2, hc3, hc4⟩ := ih extra (k + 1)
      (appended w (delivered b (w.read k b.fd (k * w.ChunkSize)))) hsz
      (fun i h1 h2 => hfull i (by omega) (by omega))
    refine ⟨c, hc1, hc2, by rw [hc3]; ring_nf, ?_⟩
    rw [show n + 1 + 1 + extra = (n + 1 + extra) + 1 by omega, uv_fs_read_succ, h0, OnRead_full,
      hsz, hc4, List.range'_succ k (n + 1)]
    have e1 : k + 1 + n = k + (n + 1) := by omega
    have e2 : k + 1 + n + 1 = k + (n + 1) + 1 := by omega
    rw [e1]
    rfl

/-- A request whose open and allocation succeed and whose reads end with read
number `n` runs to completion once `n + 1` completions are delivered. -/
theorem Decode_complete (fuel : Nat) (w : World) (f : String) (tok n : Nat)
    (hw : w.WIN32 = false) (ho : w.uv_fs_open f ≠ -1) (ha : w.alloc ≠ none)
    (hn : ReadsEndAt w (w.uv_fs_open f) n) (hfuel : n < fuel) :
    ∃ c : Baton, c.result = (newBaton f tok).result ∧ c.fd = w.uv_fs_open f ∧
      c.buffer.size = n * w.ChunkSize ∧
      Decode fuel w f tok =
        Event.fsOpen f ::
          ((List.range (n + 1)).map (fun i => Event.fsRead (w.uv_fs_open f) (i * w.ChunkSize)) ++
            afterLastRead w c (w.read n (w.uv_fs_open f) (n * w.ChunkSize)).result) := by
  obtain ⟨chunk, hchunk⟩ := Option.ne_none_iff_exists'.mp ha
  obtain ⟨c, hc1, hc2, hc3, hc4⟩ := uv_fs_read_run w n (fuel - (n + 1)) 0
    { newBaton f tok with buf := some chunk, fd := w.uv_fs_open f }
    (by simp [newBaton, SmartBuffer.size])
    (fun i _ h2 => hn.1 i (by omega))
  refine ⟨c, hc1, hc2, by simpa using hc3, ?_⟩
  have hf : n + 1 + (fuel - (n + 1)) = fuel := by omega
  simp only [hf, Nat.zero_add, Nat.zero_mul] at hc4
  rw [OnRead_last _ _ _ _ hn.2] at hc4
  simp only [Decode, hw, if_true]
  rw [OnOpen_reads fuel w _ _ chunk ho hchunk, hc4, List.range_eq_range']


/-! ## Observations on the pieces of a trace -/

theorem callbacks_reads (d : Int) (g : Nat → Nat) (l : List Nat) (t : List Event) :
    callbacks (l.map (fun i => Event.fsRead d (g i)) ++ t) = callbacks t := by
  simp [callbacks, List.filterMap_append, Event.asCallback]

theorem callbacks_fsOpen (f : String) (t : List Event) :
    callbacks (Event.fsOpen f :: t) = callbacks t := by
  simp [callbacks, Event.asCallback]

theorem BeginDecode_eq (w : World) (b : Baton) :
    BeginDecode w b =
      Event.queueWork b :: Event.decodeAsync b :: Event.onDecoded (DecodeAsync w b) ::
        (if (DecodeAsync w b).result.data = none then
          [Event.ribsError "can't decode file" "unknown image format",
           Event.callback (finish w b), Event.free]
        else [Event.callback (finish w b), Event.free]) := by
  unfold BeginDecode finish
  rw [OnDecoded_eq]
  split <;> rfl

theorem callbacks_BeginDecode (w : World) (b : Baton) :
    callbacks (BeginDecode w b) = [finish w b] := by
  rw [BeginDecode_eq]
  split <;> simp [callbacks, Event.asCallback]

theorem callbacks_readFailed (w : World) (c : Baton) :
    callbacks (readFailed w c) =
      [{ c.result with error := RibsError "can't read file" w.lastError }] := by
  simp [callbacks, readFailed, Event.asCallback]

theorem callbacks_afterLastRead (w : World) (c : Baton) (r : Int) :
    callbacks (afterLastRead w c r) =
      [if r = -1 then { c.result with error := RibsError "can't read file" w.lastError }
       else finish w (appended w c)] := by
  unfold afterLastRead
  split
  · exact callbacks_readFailed w c
  · simp [callbacks, List.filterMap_cons, Event.asCallback]
    simpa [callbacks] using callbacks_BeginDecode w (appended w c)

theorem RibsError_ne_empty (what detail : String) : RibsError what detail ≠ "" := by
  intro h
  have h2 := congrArg String.length h
  simp [RibsError, String.length_append] at h2
  have h3 : (": " : String).length = 2 := by decide
  omega

theorem finish_wellFormed (w : World) (b : Baton) (h : b.result.error = "") :
    (finish w b).wellFormed := by
  unfold finish Result.wellFormed
  split
  · rename_i hd
    right
    simp [hd, RibsError_ne_empty]
  · rename_i hd
    left
    have he : (DecodeAsync w b).result.error = "" := by simpa [DecodeAsync] using h
    simp [hd, he]


/-! ## The callback contract -/

/-- Apart from a failed allocation, every complete run of a request invokes the
user callback exactly once: on the path-only platform, when the open fails, and
when read number `n` is the first that is not a whole chunk (it fails or is short)
and its completion is delivered (`n < fuel`); the decoder may return an image or
null. -/
theorem callback_once_when_allocated (fuel : Nat) (w : World) (f : String) (tok n : Nat)
    (hn : w.WIN32 = false → w.uv_fs_open f ≠ -1 →
      w.alloc ≠ none ∧ ReadsEndAt w (w.uv_fs_open f) n ∧ n < fuel) :
    (callbacks (Decode fuel w f tok)).length = 1 := by
  by_cases hw : w.WIN32 = false
  · by_cases ho : w.uv_fs_open f = -1
    · simp [Decode, hw, ho, OnOpen_failed, callbacks, Event.asCallback]
    · obtain ⟨ha, hr, hf⟩ := hn hw ho
      obtain ⟨c, -, -, -, hc⟩ := Decode_complete fuel w f tok n hw ho ha hr hf
      rw [hc, callbacks_fsOpen, callbacks_reads, callbacks_afterLastRead]
      rfl
  · have hw2 : w.WIN32 = true := by simpa using hw
    simp [Decode, hw2, callbacks_BeginDecode]

/-- A run of three reads (two whole chunks and a last byte) calls back once. -/
theorem callback_once_when_allocated_sample :
    (callbacks (Decode 3 (sampleWorld 9 3) "a.png" 7)).length = 1 :=
  callback_once_when_allocated 3 (sampleWorld 9 3) "a.png" 7 2
    (fun _ _ => ⟨by decide, ⟨by decide, by decide⟩, by decide⟩)

/-- The run of a request whose scratch allocation fails: the open, then the
exception; no error write, no close, no callback. -/
theorem Decode_badAlloc (fuel : Nat) (w : World) (f : String) (tok : Nat)
    (hw : w.WIN32 = false) (ho : w.uv_fs_open f ≠ -1) (ha : w.alloc = none) :
    Decode fuel w f tok = [Event.fsOpen f, Event.badAlloc] := by
  simp only [Decode, hw, if_true]
  rw [OnOpen_badAlloc fuel w _ _ ho ha]

/-- C1, at the failing input: the open returns descriptor 3 and the allocation of
the scratch chunk fails.  The plain `new` throws, `OnOpen` is left before the
branch that reports the failure, and the user callback is invoked zero times,
however many completions the event loop delivers. -/
theorem alloc_failure_never_calls_back :
    Decode 3 allocFailureWorld "a.png" 7 = [Event.fsOpen "a.png", Event.badAlloc] ∧
      (callbacks (Decode 3 allocFailureWorld "a.png" 7)).length = 0 ∧
      (callbacks (Decode 100 allocFailureWorld "a.png" 7)).length = 0 := by
  decide

/-- The outcome of a request of a given shape: either reads are still pending or
the allocation threw, and nothing was written or delivered; or an I/O stage failed, wrote the error slot and
went to `Done` without decoding; or the baton was decoded, and the error slot is
written by `OnDecoded` exactly when the image is null. -/
theorem Run.delivers {w : World} {f : String} {tok : Nat} {t : List Event}
    (h : Run w f tok t) :
    (callbacks t = [] ∧ errorWrites t = [] ∧ decodeRuns t = [] ∧ decodedOn t = []) ∨
      (∃ what detail, decodeRuns t = [] ∧ decodedOn t = [] ∧
        errorWrites t = [(what, detail)] ∧
        (what = "can't open file" ∨ what = "can't read file") ∧
        callbacks t = [{ (newBaton f tok).result with error := RibsError what detail }]) ∨
      (∃ b : Baton, b.result = (newBaton f tok).result ∧ decodeRuns t = [b] ∧
        decodedOn t = [DecodeAsync w b] ∧ callbacks t = [finish w b] ∧
        errorWrites t =
          if (DecodeAsync w b).result.data = none then
            [("can't decode file", "unknown image format")] else []) := by
  cases h with
  | direct hw =>
    right; right
    refine ⟨newBaton f tok, rfl, ?_, ?_, callbacks_BeginDecode _ _, ?_⟩ <;>
      rw [BeginDecode_eq] <;> split <;>
      simp [decodeRuns, decodedOn, errorWrites, Event.asDecodeRun, Event.asDecoded,
        Event.asError]
  | openFailed hw ho =>
    right; left
    exact ⟨"can't open file", w.lastError, by
      simp [decodeRuns, decodedOn, errorWrites, callbacks, Event.asDecodeRun, Event.asDecoded,
        Event.asError, Event.asCallback]⟩
  | allocFailed hw ho ha =>
    left
    simp [callbacks, Event.asCallback, decodeRuns, decodedOn, errorWrites, Event.asDecodeRun,
      Event.asDecoded, Event.asError]
  | reading offs tail b hw ho ha hb hfd ht =>
    cases ht with
    | pending =>
      left
      simp [callbacks, Event.asCallback, decodeRuns, decodedOn, errorWrites, Event.asDecodeRun,
        Event.asDecoded, Event.asError]
    | failed c hc1 hc2 =>
      right; left
      refine ⟨"can't read file", w.lastError, ?_⟩
      simp [decodeRuns, decodedOn, errorWrites, callbacks, Event.asDecodeRun, Event.asDecoded,
        Event.asError, Event.asCallback, readFailed, List.filterMap_append, hc1, hb]
    | short c hc1 hc2 =>
      right; right
      have hres : (appended w c).result = (newBaton f tok).result := by
        rw [← hb, ← hc1]
        rfl
      refine ⟨appended w c, hres, ?_, ?_, ?_, ?_⟩
      · rw [BeginDecode_eq]
        split <;>
          simp [decodeRuns, Event.asDecodeRun, List.filterMap_append]
      · rw [BeginDecode_eq]
        split <;>
          simp [decodedOn, Event.asDecoded, List.filterMap_append]
      · have h := callbacks_BeginDecode w (appended w c)
        simp only [callbacks] at h
        simp [callbacks, Event.asCallback, List.filterMap_append, h]
      · rw [BeginDecode_eq]
        split <;>
          simp [errorWrites, Event.asError, List.filterMap_append]

/-- C2: the result passed to the callback is either a success (an image and an
empty error string) or a failure (no image and a non-empty error string), never
both and never neither; when `DecodeAsync` did not run (open or read failure) the
image is the null the fresh baton starts with. -/
theorem callback_result_wellFormed (fuel : Nat) (w : World) (f : String) (tok : Nat)
    (r : Result) (hr : r ∈ callbacks (Decode fuel w f tok)) :
    r.wellFormed ∧ (decodeRuns (Decode fuel w f tok) = [] → r.data = none) := by
  rcases (Decode_run fuel w f tok).delivers with h | ⟨what, detail, h1, -, -, -, h2⟩ |
      ⟨b, hb, h1, -, h2, -⟩
  · simp [h.1] at hr
  · rw [h2] at hr
    simp only [List.mem_singleton] at hr
    subst hr
    refine ⟨?_, fun _ => rfl⟩
    simp [Result.wellFormed, Xor', newBaton, RibsError_ne_empty]
  · rw [h2] at hr
    simp only [List.mem_singleton] at hr
    subst hr
    refine ⟨finish_wellFormed w b (by rw [hb]; rfl), ?_⟩
    rw [h1]
    simp

/-- The decode failure delivered for a nine-byte file that is no image is well formed. -/
theorem callback_result_wellFormed_witness :
    Result.wellFormed
      { error := "can't decode file: unknown image format", filename := "a.png",
        callback := 7, data := none } :=
  (callback_result_wellFormed 3 (sampleWorld 9 3) "a.png" 7
    { error := "can't decode file: unknown image format", filename := "a.png",
      callback := 7, data := none } (by decide)).1


theorem RibsError_begins (what detail : String) :
    RibsError what detail = what ++ (": " ++ detail) := by
  simp [RibsError, String.append_assoc]

theorem finish_of_null (w : World) (b : Baton) (h : PIX_READ w b.result.filename = none) :
    finish w b =
      { b.result with
        error := "can't decode file: unknown image format", data := none } := by
  have hd : (DecodeAsync w b).result.data = none := by
    simp [DecodeAsync, h, pixGetColormap]
  have he : RibsError "can't decode file" "unknown image format" =
      "can't decode file: unknown image format" := by decide
  unfold finish
  rw [if_pos hd, he]
  simp [DecodeAsync, h, pixGetColormap]

theorem callbacks_open_failed (fuel : Nat) (w : World) (f : String) (tok : Nat)
    (hw : w.WIN32 = false) (ho : w.uv_fs_open f = -1) :
    callbacks (Decode fuel w f tok) =
      [{ (newBaton f tok).result with error := RibsError "can't open file" w.lastError }] := by
  simp [Decode, hw, OnOpen, ho, Done, callbacks, Event.asCallback, Baton.setError]

/-- Apart from a failed allocation, the error delivered for a failed request names
the first stage that failed.  Off the path-only platform it begins with
`can't open file` when the open fails, with `can't read file` when a read fails
(after `n` whole chunks), and it is `can't decode file: unknown image format` when
the reads ended with a short read and the decoder returned null.  On the path-only
platform, which has no I/O stage, it is that same decode message when the decoder
returned null. -/
theorem error_names_failed_stage (fuel : Nat) (w : World) (f : String) (tok n : Nat) :
    (w.WIN32 = false → w.uv_fs_open f = -1 →
      ∃ r rest, callbacks (Decode fuel w f tok) = [r] ∧
        r.error = "can't open file" ++ rest) ∧
    (w.WIN32 = false → w.uv_fs_open f ≠ -1 → w.alloc ≠ none →
      ReadsEndAt w (w.uv_fs_open f) n → n < fuel →
      ((w.read n (w.uv_fs_open f) (n * w.ChunkSize)).result = -1 →
        ∃ r rest, callbacks (Decode fuel w f tok) = [r] ∧
          r.error = "can't read file" ++ rest) ∧
      ((w.read n (w.uv_fs_open f) (n * w.ChunkSize)).result ≠ -1 → PIX_READ w f = none →
        ∃ r, callbacks (Decode fuel w f tok) = [r] ∧
          r.error = "can't decode file: unknown image format")) ∧
    (w.WIN32 = true → PIX_READ w f = none →
      ∃ r, callbacks (Decode fuel w f tok) = [r] ∧
        r.error = "can't decode file: unknown image format") := by
  refine ⟨fun hw ho => ?_, fun hw ho ha hn hfuel => ?_, fun hw hp => ?_⟩
  · exact ⟨_, ": " ++ w.lastError, callbacks_open_failed fuel w f tok hw ho,
      RibsError_begins _ _⟩
  · obtain ⟨c, hc1, -, -, hc⟩ := Decode_complete fuel w f tok n hw ho ha hn hfuel
    have hcb : callbacks (Decode fuel w f tok) =
        [if (w.read n (w.uv_fs_open f) (n * w.ChunkSize)).result = -1 then
          { c.result with error := RibsError "can't read file" w.lastError }
         else finish w (appended w c)] := by
      rw [hc, callbacks_fsOpen, callbacks_reads, callbacks_afterLastRead]
    refine ⟨fun hr => ?_, fun hr hp => ?_⟩
    · exact ⟨{ c.result with error := RibsError "can't read file" w.lastError },
        ": " ++ w.lastError, by rw [hcb, if_pos hr], RibsError_begins _ _⟩
    · have hfile : (appended w c).result.filename = f := by
        show c.result.filename = f
        rw [hc1]
        rfl
      refine ⟨_, by rw [hcb, if_neg hr], ?_⟩
      rw [finish_of_null w (appended w c) (by rw [hfile]; exact hp)]
  · refine ⟨finish w (newBaton f tok), by simp [Decode, hw, callbacks_BeginDecode], ?_⟩
    rw [finish_of_null w (newBaton f tok) hp]

/-- A nine-byte file that is no image: three reads, then the decode failure. -/
theorem error_names_failed_stage_sample :
    ∃ r, callbacks (Decode 3 (sampleWorld 9 3) "a.png" 7) = [r] ∧
      r.error = "can't decode file: unknown image format" :=
  ((error_names_failed_stage 3 (sampleWorld 9 3) "a.png" 7 2).2.1 (by decide)
    (by decide) (by decide) ⟨by decide, by decide⟩ (by decide)).2 (by decide) (by decide)

/-- C3, at the failing input: the open returns descriptor 3 and the allocation of
the scratch chunk fails.  The plain `new` throws before `RibsError` is reached: the
error slot is never written and no result, hence no error string
`can't open file: not enough memory`, is delivered to the callback. -/
theorem alloc_failure_delivers_no_error :
    errorWrites (Decode 3 allocFailureWorld "a.png" 7) = [] ∧
      (callbacks (Decode 3 allocFailureWorld "a.png" 7)).map (fun r => r.error) = [] ∧
      ∀ r, r ∈ callbacks (Decode 3 allocFailureWorld "a.png" 7) →
        r.error ≠ "can't open file: not enough memory" := by
  refine ⟨by decide, by decide, ?_⟩
  have h : callbacks (Decode 3 allocFailureWorld "a.png" 7) = [] := by decide
  intro r hr
  rw [h] at hr
  cases hr

/-! ## Reading a file of a given length -/

theorem ReadsFile.whole_chunk {w : World} {f : String} {len : Nat} (h : ReadsFile w f len)
    (k : Nat) (hk : k < len / w.ChunkSize) :
    (w.read k (w.uv_fs_open f) (k * w.ChunkSize)).result = (w.ChunkSize : Int) := by
  rw [h k (k * w.ChunkSize)]
  have h1 : len / w.ChunkSize * w.ChunkSize ≤ len := Nat.div_mul_le_self len w.ChunkSize
  have h2 : (k + 1) * w.ChunkSize ≤ len / w.ChunkSize * w.ChunkSize :=
    Nat.mul_le_mul_right _ hk
  have h3 : (k + 1) * w.ChunkSize = k * w.ChunkSize + w.ChunkSize := by ring
  have h4 : min w.ChunkSize (len - k * w.ChunkSize) = w.ChunkSize := by omega
  rw [h4]

theorem ReadsFile.last_read {w : World} {f : String} {len : Nat} (h : ReadsFile w f len)
    (hcs : 0 < w.ChunkSize) :
    (w.read (len / w.ChunkSize) (w.uv_fs_open f) (len / w.ChunkSize * w.ChunkSize)).result =
      ((len % w.ChunkSize : Nat) : Int) := by
  rw [h (len / w.ChunkSize) (len / w.ChunkSize * w.ChunkSize)]
  have h1 : w.ChunkSize * (len / w.ChunkSize) + len % w.ChunkSize = len :=
    Nat.div_add_mod len w.ChunkSize
  have h2 : len % w.ChunkSize < w.ChunkSize := Nat.mod_lt len hcs
  have h3 : w.ChunkSize * (len / w.ChunkSize) = len / w.ChunkSize * w.ChunkSize :=
    Nat.mul_comm _ _
  have h4 : min w.ChunkSize (len - len / w.ChunkSize * w.ChunkSize) = len % w.ChunkSize := by
    omega
  rw [h4]

theorem ReadsFile.readsEndAt {w : World} {f : String} {len : Nat} (h : ReadsFile w f len)
    (hcs : 0 < w.ChunkSize) : ReadsEndAt w (w.uv_fs_open f) (len / w.ChunkSize) := by
  refine ⟨fun i hi => h.whole_chunk i hi, ?_⟩
  rw [h.last_read hcs]
  have h2 : len % w.ChunkSize < w.ChunkSize := Nat.mod_lt len hcs
  omega

/-- The run of a request on a file of `len` bytes, read without error. -/
theorem Decode_file (fuel : Nat) (w : World) (f : String) (tok len : Nat)
    (hw : w.WIN32 = false) (ho : w.uv_fs_open f ≠ -1) (ha : w.alloc ≠ none)
    (hcs : 0 < w.ChunkSize) (hfile : ReadsFile w f len) (hfuel : len / w.ChunkSize < fuel) :
    ∃ c : Baton, c.result = (newBaton f tok).result ∧ c.fd = w.uv_fs_open f ∧
      c.buffer.size = (len / w.ChunkSize + 1) * w.ChunkSize ∧
      Decode fuel w f tok =
        Event.fsOpen f ::
          ((List.range (len / w.ChunkSize + 1)).map
              (fun k => Event.fsRead (w.uv_fs_open f) (k * w.ChunkSize)) ++
            Event.fsClose (w.uv_fs_open f) (w.uv_fs_close (w.uv_fs_open f)) ::
              BeginDecode w c) := by
  obtain ⟨c, hc1, hc2, hc3, hc⟩ :=
    Decode_complete fuel w f tok (len / w.ChunkSize) hw ho ha (hfile.readsEndAt hcs) hfuel
  refine ⟨appended w c, hc1, hc2, ?_, ?_⟩
  · simp only [appended, SmartBuffer.size_append, hc3]
    ring
  · rw [hc, hfile.last_read hcs]
    have hne : ((len % w.ChunkSize : Nat) : Int) ≠ -1 := by omega
    simp only [afterLastRead, if_neg hne, hc2]

theorem readOffsets_reads (d : Int) (g : Nat → Nat) (l : List Nat) (t : List Event) :
    readOffsets (l.map (fun i => Event.fsRead d (g i)) ++ t) = l.map g ++ readOffsets t := by
  induction l with
  | nil => rfl
  | cons a l ih =>
    simp only [readOffsets] at ih
    simp [readOffsets, Event.asRead, List.filterMap_cons, ih]

theorem readOffsets_BeginDecode (w : World) (b : Baton) : readOffsets (BeginDecode w b) = [] := by
  rw [BeginDecode_eq]
  split <;> simp [readOffsets, Event.asRead]

theorem handovers_BeginDecode (w : World) (b : Baton) : handovers (BeginDecode w b) = [b] := by
  rw [BeginDecode_eq]
  split <;> simp [handovers, Event.asHandover]

/-- C6: for a file of `len` bytes read without error the I/O stage terminates
after exactly `len / ChunkSize + 1` reads; read number `k` is issued at offset
`k * ChunkSize`; every read but the last returns `ChunkSize` bytes and the last
returns `len % ChunkSize` bytes, fewer than `ChunkSize` (none when `len` is a
multiple of the chunk size); then the descriptor is closed and the decoding is
dispatched. -/
theorem reads_of_a_file (fuel : Nat) (w : World) (f : String) (tok len : Nat)
    (hw : w.WIN32 = false) (ho : w.uv_fs_open f ≠ -1) (ha : w.alloc ≠ none)
    (hcs : 0 < w.ChunkSize) (hfile : ReadsFile w f len) (hfuel : len / w.ChunkSize < fuel) :
    readOffsets (Decode fuel w f tok) =
        (List.range (len / w.ChunkSize + 1)).map (fun k => k * w.ChunkSize) ∧
      (readOffsets (Decode fuel w f tok)).length = len / w.ChunkSize + 1 ∧
      (∀ k, k < len / w.ChunkSize →
        (w.read k (w.uv_fs_open f) (k * w.ChunkSize)).result = (w.ChunkSize : Int)) ∧
      (w.read (len / w.ChunkSize) (w.uv_fs_open f) (len / w.ChunkSize * w.ChunkSize)).result =
        ((len % w.ChunkSize : Nat) : Int) ∧
      len % w.ChunkSize < w.ChunkSize ∧
      ∃ c : Baton,
        Decode fuel w f tok =
          Event.fsOpen f ::
            ((List.range (len / w.ChunkSize + 1)).map
                (fun k => Event.fsRead (w.uv_fs_open f) (k * w.ChunkSize)) ++
              Event.fsClose (w.uv_fs_open f) (w.uv_fs_close (w.uv_fs_open f)) ::
                BeginDecode w c) := by
  obtain ⟨c, -, -, -, hc⟩ := Decode_file fuel w f tok len hw ho ha hcs hfile hfuel
  have hoffs : readOffsets (Decode fuel w f tok) =
      (List.range (len / w.ChunkSize + 1)).map (fun k => k * w.ChunkSize) := by
    have hopen : ∀ t, readOffsets (Event.fsOpen f :: t) = readOffsets t := fun t => by
      simp [readOffsets, Event.asRead]
    have hclose : ∀ d e t, readOffsets (Event.fsClose d e :: t) = readOffsets t :=
      fun d e t => by simp [readOffsets, Event.asRead]
    rw [hc, hopen, readOffsets_reads, hclose, readOffsets_BeginDecode, List.append_nil]
  refine ⟨hoffs, ?_, fun k hk => hfile.whole_chunk k hk, hfile.last_read hcs,
    Nat.mod_lt len hcs, c, hc⟩
  rw [hoffs]
  simp

/-- A file of nine bytes with chunks of four: reads at 0, 4 and 8. -/
theorem reads_of_a_file_witness :
    readOffsets (Decode 3 (sampleWorld 9 3) "a.png" 7) = [0, 4, 8] :=
  (reads_of_a_file 3 (sampleWorld 9 3) "a.png" 7 9 (by decide) (by decide) (by decide)
    (by decide) (fun _ _ => rfl) (by decide)).1


/-! ## The descriptor and the accumulated bytes -/

theorem closes_BeginDecode (w : World) (b : Baton) : closes (BeginDecode w b) = [] := by
  rw [BeginDecode_eq]
  split <;> simp [closes, Event.asClose]

/-- On the paths through the read loop the descriptor returned by the open is
closed exactly once, and no close is attempted when the open fails. -/
theorem closes_after_reads (fuel : Nat) (w : World) (f : String) (tok n : Nat)
    (hw : w.WIN32 = false) :
    (w.uv_fs_open f = -1 → closes (Decode fuel w f tok) = []) ∧
    (w.uv_fs_open f ≠ -1 → w.alloc ≠ none → ReadsEndAt w (w.uv_fs_open f) n → n < fuel →
      closes (Decode fuel w f tok) = [w.uv_fs_open f]) := by
  refine ⟨fun ho => ?_, fun ho ha hn hfuel => ?_⟩
  · simp [Decode, hw, OnOpen, ho, Done, closes, Event.asClose]
  · obtain ⟨c, -, hc2, -, hc⟩ := Decode_complete fuel w f tok n hw ho ha hn hfuel
    have hb := closes_BeginDecode w (appended w c)
    simp only [closes] at hb
    rw [hc]
    unfold afterLastRead readFailed
    split <;> simp [closes, Event.asClose, List.filterMap_append, hc2, hb]

/-- When the scratch allocation fails no close is attempted, whatever the open
returned. -/
theorem closes_on_alloc_failure (fuel : Nat) (w : World) (f : String) (tok : Nat)
    (hw : w.WIN32 = false) (ho : w.uv_fs_open f ≠ -1) (ha : w.alloc = none) :
    closes (Decode fuel w f tok) = [] := by
  rw [Decode_badAlloc fuel w f tok hw ho ha]
  rfl

/-- C4, at the failing input: the open returns descriptor 3 and the allocation of
the scratch chunk fails.  The plain `new` throws before the branch that calls
`Close`: no close is attempted at all, and descriptor 3 stays open. -/
theorem alloc_failure_closes_nothing :
    allocFailureWorld.uv_fs_open "a.png" = 3 ∧
      closes (Decode 3 allocFailureWorld "a.png" 7) = [] ∧
      (3 : Int) ∉ closes (Decode 3 allocFailureWorld "a.png" 7) := by
  decide

/-- The size of the buffer handed to the decoder for a file of `len` bytes: one
whole chunk for every read, the last included. -/
theorem buffer_size_at_handover (fuel : Nat) (w : World) (f : String) (tok len : Nat)
    (hw : w.WIN32 = false) (ho : w.uv_fs_open f ≠ -1) (ha : w.alloc ≠ none)
    (hcs : 0 < w.ChunkSize) (hfile : ReadsFile w f len) (hfuel : len / w.ChunkSize < fuel) :
    (handovers (Decode fuel w f tok)).map (fun b => b.buffer.size) =
      [(len / w.ChunkSize + 1) * w.ChunkSize] := by
  obtain ⟨c, -, -, hc3, hc⟩ := Decode_file fuel w f tok len hw ho ha hcs hfile hfuel
  have hb := handovers_BeginDecode w c
  simp only [handovers] at hb
  rw [hc]
  simp [handovers, Event.asHandover, List.filterMap_append, hb, hc3]

/-- C5, at the failing inputs: with chunks of four bytes, an empty file is handed
to the decoder as a buffer of size 4, and a file of 2 * 4 + 3 = 11 bytes as a
buffer of size 12: `OnRead` appends the whole scratch chunk after the last, short
read too. -/
theorem short_read_appends_whole_chunk :
    (handovers (Decode 1 (sampleWorld 0 3) "a.png" 7)).map (fun b => b.buffer.size) = [4] ∧
      (handovers (Decode 3 (sampleWorld 11 3) "a.png" 7)).map (fun b => b.buffer.size) =
        [12] := by
  decide

/-! ## The input of the decoder -/

/-- The image `DecodeAsync` stores is computed from the file name and the platform alone. -/
theorem DecodeAsync_data (w : World) (b : Baton) :
    (DecodeAsync w b).result.data =
      if pixGetColormap (PIX_READ w b.result.filename) then
        (PIX_READ w b.result.filename).bind w.pixRemoveColormap
      else PIX_READ w b.result.filename := by
  simp [DecodeAsync]

/-- Off the path-only platform the decoder is called on the bytes of the file name. -/
theorem PIX_READ_memory (w : World) (filename : String) (hw : w.WIN32 = false) :
    PIX_READ w filename = w.pixReadMem (cstr filename) := by
  simp [PIX_READ, hw]

/-- C7, at the failing input: off the path-only platform, file `a.png` holds the
bytes 0, 1, 2 and the decoder decodes the accumulated bytes; `DecodeAsync` calls
`pixReadMem` on the bytes of the file name instead, gets null, and the request
fails with a decode error. -/
theorem decoder_is_given_the_file_name :
    (handovers (Decode 1 imageWorld "a.png" 7)).map
        (fun b => (b.buffer.contiguous, imageWorld.pixReadMem b.buffer.contiguous)) =
        [([0, 1, 2, 0], some ⟨1, false⟩)] ∧
      PIX_READ imageWorld "a.png" = imageWorld.pixReadMem (cstr "a.png") ∧
      imageWorld.pixReadMem (cstr "a.png") = none ∧
      (callbacks (Decode 1 imageWorld "a.png" 7)).map (fun r => (r.data, r.error)) =
        [(none, "can't decode file: unknown image format")] := by
  decide


/-! ## The two platforms -/

theorem finish_congr (w1 w2 : World) (b1 b2 : Baton) (hres : b1.result = b2.result)
    (hpix : PIX_READ w1 b1.result.filename = PIX_READ w2 b2.result.filename)
    (hrm : w1.pixRemoveColormap = w2.pixRemoveColormap) : finish w1 b1 = finish w2 b2 := by
  have h : (DecodeAsync w1 b1).result = (DecodeAsync w2 b2).result := by
    rw [hres] at hpix
    simp only [DecodeAsync, hres, hpix, hrm]
  simp only [finish, h]

/-- C8, the counterexample: a file that cannot be opened, with a decoder that
returns null for it.  The memory-based pipeline delivers `can't open file: ENOENT`,
the path-only pipeline delivers `can't decode file: unknown image format`. -/
theorem platforms_differ_on_missing_file :
    callbacks (Decode 1 (missingFileWorld false) "/no/such/file" 7) =
        [{ error := "can't open file: ENOENT", filename := "/no/such/file", callback := 7,
           data := none }] ∧
      callbacks (Decode 1 (missingFileWorld true) "/no/such/file" 7) =
        [{ error := "can't decode file: unknown image format", filename := "/no/such/file",
           callback := 7, data := none }] ∧
      callbacks (Decode 1 (missingFileWorld false) "/no/such/file" 7) ≠
        callbacks (Decode 1 (missingFileWorld true) "/no/such/file" 7) := by
  decide

/-- C8, amended: the path-only pipeline and the memory-based pipeline deliver the
same result whenever, on the memory-based one, the open, the allocation and the
reads succeed and the decoder call returns the same image on both platforms.
When the open fails and the decoder returns null for the path, the memory-based
pipeline delivers an error that begins with `can't open file` and the path-only
pipeline delivers `can't decode file: unknown image format`. -/
theorem platforms_agree_when_io_succeeds (fuel : Nat) (w : World) (f : String) (tok n : Nat) :
    (w.uv_fs_open f ≠ -1 → w.alloc ≠ none → ReadsEndAt w (w.uv_fs_open f) n → n < fuel →
      (w.read n (w.uv_fs_open f) (n * w.ChunkSize)).result ≠ -1 →
      w.pixRead f = w.pixReadMem (cstr f) →
      callbacks (Decode fuel { w with WIN32 := false } f tok) =
        callbacks (Decode fuel { w with WIN32 := true } f tok)) ∧
    (w.uv_fs_open f = -1 → w.pixRead f = none →
      (∃ r rest, callbacks (Decode fuel { w with WIN32 := false } f tok) = [r] ∧
        r.error = "can't open file" ++ rest) ∧
      ∃ r, callbacks (Decode fuel { w with WIN32 := true } f tok) = [r] ∧
        r.error = "can't decode file: unknown image format") := by
  have hpath : callbacks (Decode fuel { w with WIN32 := true } f tok) =
      [finish { w with WIN32 := true } (newBaton f tok)] := by
    simp [Decode, callbacks_BeginDecode]
  refine ⟨fun ho ha hn hfuel hr hdec => ?_, fun ho hnull => ⟨?_, ?_⟩⟩
  · obtain ⟨c, hc1, -, -, hc⟩ :=
      Decode_complete fuel { w with WIN32 := false } f tok n rfl ho ha hn hfuel
    rw [hpath, hc, callbacks_fsOpen, callbacks_reads, callbacks_afterLastRead]
    have hr2 : ¬ (w.read n (w.uv_fs_open f) (n * w.ChunkSize)).result = -1 := hr
    simp only [hr2, if_false]
    have hres : (appended { w with WIN32 := false } c).result = (newBaton f tok).result := hc1
    rw [finish_congr { w with WIN32 := false } { w with WIN32 := true } _ _ hres ?_ rfl]
    rw [hres]
    simp [PIX_READ, newBaton, hdec]
  · exact ⟨_, ": " ++ w.lastError,
      callbacks_open_failed fuel { w with WIN32 := false } f tok rfl ho, RibsError_begins _ _⟩
  · refine ⟨_, hpath, ?_⟩
    rw [finish_of_null _ _ (by simpa [PIX_READ, newBaton] using hnull)]

/-- A three-byte file and decoders that return the same image for what `DecodeAsync`
hands them: both platforms deliver the same result. -/
theorem platforms_agree_when_io_succeeds_witness :
    callbacks (Decode 1 { agreeingWorld with WIN32 := false } "a.png" 7) =
      callbacks (Decode 1 { agreeingWorld with WIN32 := true } "a.png" 7) :=
  (platforms_agree_when_io_succeeds 1 agreeingWorld "a.png" 7 0).1
    (by decide) (by decide) ⟨by decide, by decide⟩ (by decide) (by decide) (by decide)


/-! ## The close -/

theorem callbacks_forgetCloseResult (t : List Event) :
    callbacks (t.map Event.forgetCloseResult) = callbacks t := by
  induction t with
  | nil => rfl
  | cons e t ih =>
    simp only [callbacks] at ih
    cases e <;>
      simp [callbacks, Event.forgetCloseResult, Event.asCallback, List.filterMap_cons, ih]

theorem BeginDecode_sameButClose {w v : World} (h : SameButClose w v) (b : Baton) :
    BeginDecode v b = BeginDecode w b := by
  obtain ⟨e1, -, -, -, -, -, e7, e8, e9⟩ := h
  simp only [BeginDecode, DecodeAsync, PIX_READ, e1, e7, e8, e9]

theorem uv_fs_read_sameButClose {w v : World} (h : SameButClose w v) :
    ∀ (fuel k : Nat) (b : Baton) (off : Nat),
      (uv_fs_read v fuel k b off).map Event.forgetCloseResult =
        (uv_fs_read w fuel k b off).map Event.forgetCloseResult := by
  have hcs : v.ChunkSize = w.ChunkSize := h.2.1
  have hle : v.lastError = w.lastError := h.2.2.2.1
  have hrd : v.read = w.read := h.2.2.2.2.2.1
  have happ : ∀ b, appended v b = appended w b := fun b => by simp only [appended, hcs]
  intro fuel
  induction fuel with
  | zero =>
    intro k b off
    rfl
  | succ fuel ih =>
    intro k b off
    rw [uv_fs_read_succ, uv_fs_read_succ, hrd]
    by_cases h1 : (w.read k b.fd off).result = -1
    · rw [h1, OnRead_failed, OnRead_failed]
      simp [readFailed, Event.forgetCloseResult, hle]
    · by_cases h2 : (w.read k b.fd off).result = (w.ChunkSize : Int)
      · have h2v : (w.read k b.fd off).result = (v.ChunkSize : Int) := by rw [hcs]; exact h2
        rw [OnRead_full_of _ w _ _ h2, OnRead_full_of _ v _ _ h2v, happ]
        simp only [List.map_cons]
        rw [ih]
      · have h2v : (w.read k b.fd off).result ≠ (v.ChunkSize : Int) := by rw [hcs]; exact h2
        rw [OnRead_short _ w _ _ h1 h2, OnRead_short _ v _ _ h1 h2v, happ,
          BeginDecode_sameButClose h]
        simp [Event.forgetCloseResult]

/-- The trace of a request does not depend on what the close returns, apart from
the return value logged with the close itself. -/
theorem Decode_sameButClose {w v : World} (h : SameButClose w v) (fuel : Nat) (f : String)
    (tok : Nat) :
    (Decode fuel v f tok).map Event.forgetCloseResult =
      (Decode fuel w f tok).map Event.forgetCloseResult := by
  have hwin : v.WIN32 = w.WIN32 := h.1
  have hop : v.uv_fs_open = w.uv_fs_open := h.2.2.1
  have hle : v.lastError = w.lastError := h.2.2.2.1
  have hal : v.alloc = w.alloc := h.2.2.2.2.1
  unfold Decode
  rw [hwin, hop]
  by_cases hw : w.WIN32 = false
  · simp only [hw, if_true, List.map_cons]
    congr 1
    unfold OnOpen
    rw [hle, hal]
    by_cases ho : w.uv_fs_open f = -1
    · simp only [ho, if_true]
    · simp only [ho, if_false]
      cases w.alloc with
      | none => rfl
      | some chunk =>
        simp only [reduceCtorEq, if_false]
        exact uv_fs_read_sameButClose h fuel 0 _ 0
  · simp [hw, BeginDecode_sameButClose h]

/-- C9: `Close` leaves the baton as it is, whatever the close returns: the error
slot, the image and the accumulated bytes are the same after it; two runs that
differ only in what the close returns deliver the same results to the callback. -/
theorem close_result_is_dropped (fuel : Nat) (w : World) (close : Int → Int) (b : Baton)
    (f : String) (tok : Nat) :
    (Close { w with uv_fs_close := close } b).1.result.error = b.result.error ∧
      (Close { w with uv_fs_close := close } b).1.result.data = b.result.data ∧
      (Close { w with uv_fs_close := close } b).1.buffer = b.buffer ∧
      (Close { w with uv_fs_close := close } b).1 = (Close w b).1 ∧
      callbacks (Decode fuel { w with uv_fs_close := close } f tok) =
        callbacks (Decode fuel w f tok) := by
  refine ⟨by rw [Close_eq], by rw [Close_eq], by rw [Close_eq],
    by rw [Close_eq, Close_eq], ?_⟩
  have h : SameButClose w { w with uv_fs_close := close } :=
    ⟨rfl, rfl, rfl, rfl, rfl, rfl, rfl, rfl, rfl⟩
  rw [← callbacks_forgetCloseResult, Decode_sameButClose h, callbacks_forgetCloseResult]

/-! ## The error slot -/

theorem mem_errorWrites (t : List Event) (what detail : String) :
    Event.ribsError what detail ∈ t ↔ (what, detail) ∈ errorWrites t := by
  induction t with
  | nil => simp [errorWrites]
  | cons e t ih =>
    simp only [errorWrites] at ih
    cases e <;>
      simp [errorWrites, Event.asError, List.filterMap_cons, ih]

/-- C10: the error slot is written at most once per request.  When an I/O stage
writes it (open, allocation or read failure), neither `DecodeAsync` nor
`OnDecoded` runs.  Whenever `OnDecoded` runs, the error slot is empty on entry,
and the decode failure is written exactly when the image is null. -/
theorem error_slot_written_once (fuel : Nat) (w : World) (f : String) (tok : Nat) :
    (errorWrites (Decode fuel w f tok)).length ≤ 1 ∧
      (∀ what detail, Event.ribsError what detail ∈ Decode fuel w f tok →
        what = "can't open file" ∨ what = "can't read file" →
        decodeRuns (Decode fuel w f tok) = [] ∧ decodedOn (Decode fuel w f tok) = []) ∧
      (∀ b, b ∈ decodedOn (Decode fuel w f tok) → b.result.error = "") ∧
      (∀ what detail, Event.ribsError what detail ∈ Decode fuel w f tok →
        what = "can't decode file" →
        ∃ b, b ∈ decodedOn (Decode fuel w f tok) ∧ b.result.data = none ∧
          b.result.error = "") ∧
      (∀ b, b ∈ decodedOn (Decode fuel w f tok) → b.result.data = none →
        errorWrites (Decode fuel w f tok) = [("can't decode file", "unknown image format")]) := by
  have hne1 : ("can't decode file" : String) ≠ "can't open file" := by decide
  have hne2 : ("can't decode file" : String) ≠ "can't read file" := by decide
  rcases (Decode_run fuel w f tok).delivers with ⟨-, h2, h3, h4⟩ |
      ⟨what0, detail0, h1, h2, h3, h4, -⟩ | ⟨b0, hb, h1, h2, -, h3⟩
  · refine ⟨by simp [h2], fun _ _ _ _ => ⟨h3, h4⟩, by simp [h4], ?_, by simp [h4]⟩
    intro what detail hm
    rw [mem_errorWrites, h2] at hm
    simp at hm
  · refine ⟨by simp [h3], fun _ _ _ _ => ⟨h1, h2⟩, by simp [h2], ?_, by simp [h2]⟩
    intro what detail hm hw
    rw [mem_errorWrites, h3] at hm
    simp only [List.mem_singleton, Prod.mk.injEq] at hm
    rcases h4 with h4 | h4 <;> rw [hw, h4] at hm
    · exact absurd hm.1 hne1
    · exact absurd hm.1 hne2
  · have he : (DecodeAsync w b0).result.error = "" := by
      show b0.result.error = ""
      rw [hb]
      rfl
    refine ⟨?_, ?_, ?_, ?_, ?_⟩
    · rw [h3]
      split <;> simp
    · intro what detail hm hw
      rw [mem_errorWrites, h3] at hm
      split at hm
      · simp only [List.mem_singleton, Prod.mk.injEq] at hm
        rcases hw with hw | hw <;> rw [hw] at hm
        · exact absurd hm.1.symm hne1
        · exact absurd hm.1.symm hne2
      · simp at hm
    · intro b hbm
      rw [h2] at hbm
      simp only [List.mem_singleton] at hbm
      rw [hbm]
      exact he
    · intro what detail hm _
      rw [mem_errorWrites, h3] at hm
      split at hm
      · rename_i hd
        exact ⟨DecodeAsync w b0, by simp [h2], hd, he⟩
      · simp at hm
    · intro b hbm hd
      rw [h2] at hbm
      simp only [List.mem_singleton] at hbm
      rw [h3, ← hbm, if_pos hd]

end Ribs
